import Mathlib

/-!
Verification of the liminal-salt memory & session subsystem.

Shallow embedding of the Python sources under `src/chat` (services
`chat_core.py`, `summarizer.py`, `context_manager.py`, `user_context.py`,
`utils.py`, and the persona/context views in `views.py`).  The filesystem and
the model-provider HTTP API are abstracted as explicit inputs: file contents
are passed as values (`Option String` for a file that may be absent) and each
provider call is an `Option String` / `ApiAttempt` input (`none` standing for
a raised exception).  All other logic is translated operation by operation
from the Python code.
-/

namespace LiminalSalt

/-! ## Python string primitives

Helpers mirroring the Python `str` operations used by the sources:
`in`, `startswith`, `endswith`, `strip`, `rstrip`, `split`/`join`. -/

/-- Whitespace test used by Python `str.strip` / `str.split`. -/
def wsChar (c : Char) : Bool := c.isWhitespace

/-- Does the first list start with the second one? -/
def listStartsWith : List Char → List Char → Bool
  | _, [] => true
  | [], _ :: _ => false
  | c :: cs, p :: ps => (c = p) && listStartsWith cs ps

/-- Occurrence of `pat` somewhere in the list (Python `pat in s`). -/
def listContainsSub (pat : List Char) : List Char → Bool
  | [] => pat.isEmpty
  | c :: rest => listStartsWith (c :: rest) pat || listContainsSub pat rest

/-- Python `pat in s`. -/
def pyIn (pat s : String) : Bool := listContainsSub pat.data s.data

/-- Python `s.startswith(pre)`. -/
def pyStartsWith (s pre : String) : Bool := listStartsWith s.data pre.data

/-- Python `s.endswith(suf)`. -/
def pyEndsWith (s suf : String) : Bool := listStartsWith s.data.reverse suf.data.reverse

/-- Drop trailing characters satisfying `p` (right-hand part of a strip). -/
def trimRightList (p : Char → Bool) (l : List Char) : List Char :=
  (l.reverse.dropWhile p).reverse

/-- Python `s.strip()`: whitespace removed from both ends. -/
def pyStrip (s : String) : String :=
  String.mk (trimRightList wsChar (s.data.dropWhile wsChar))

/-- Python `s.rstrip(cs)`. -/
def pyRstrip (s : String) (cs : List Char) : String :=
  String.mk (trimRightList (fun c => cs.contains c) s.data)

/-- Python `sep.join(parts)`. -/
def joinWith (sep : String) : List String → String
  | [] => ""
  | [x] => x
  | x :: y :: rest => x ++ sep ++ joinWith sep (y :: rest)

/-- Splitter behind Python `s.split()` (no argument): whitespace runs are
separators and empty pieces are dropped.  `acc` is the reversed current word. -/
def splitWsAux : List Char → List Char → List (List Char)
  | [], acc => if acc.isEmpty then [] else [acc.reverse]
  | c :: rest, acc =>
    if wsChar c then
      if acc.isEmpty then splitWsAux rest []
      else acc.reverse :: splitWsAux rest []
    else splitWsAux rest (c :: acc)

/-- Python `' '.join(s.split())`: collapse internal whitespace runs. -/
def collapseWs (s : String) : String :=
  joinWith " " ((splitWsAux s.data []).map String.mk)

/-- One left-to-right pass of Python `s.replace(pat, rep)` over the character
list, with explicit fuel (one unit per character examined; `startFuel` below
always supplies enough).  An empty pattern is never used by the sources and
is treated as no match. -/
def replaceFuel (pat rep : List Char) : Nat → List Char → List Char
  | 0, l => l
  | Nat.succ _, [] => []
  | Nat.succ n, c :: rest =>
    if !pat.isEmpty && listStartsWith (c :: rest) pat then
      rep ++ replaceFuel pat rep n (List.drop (pat.length - 1) rest)
    else
      c :: replaceFuel pat rep n rest

/-- Python `s.replace(pat, rep)`: non-overlapping occurrences, left to right. -/
def pyReplace (s pat rep : String) : String :=
  String.mk (replaceFuel pat.data rep.data s.data.length s.data)

/-- The apostrophe character, used in some source string literals. -/
def squote : String := String.singleton (Char.ofNat 39)

/-- Code-point lexicographic comparison, as Python compares strings. -/
def listLexLt : List Char → List Char → Bool
  | [], [] => false
  | [], _ :: _ => true
  | _ :: _, [] => false
  | a :: as, b :: bs =>
    if a.toNat < b.toNat then true
    else if b.toNat < a.toNat then false
    else listLexLt as bs

/-- Python `a < b` on strings. -/
def strLt (a b : String) : Bool := listLexLt a.data b.data

/-- Stable ascending insertion by a string key (Python `sorted(key=...)`). -/
def insertByAsc {α : Type} (key : α → String) (x : α) : List α → List α
  | [] => [x]
  | y :: ys => if strLt (key x) (key y) then x :: y :: ys else y :: insertByAsc key x ys

/-- Stable ascending sort by a string key (Python `sorted(key=...)`). -/
def sortByAsc {α : Type} (key : α → String) : List α → List α
  | [] => []
  | x :: xs => insertByAsc key x (sortByAsc key xs)

/-- Stable descending insertion by a string key (Python `sorted(..., reverse=True)`). -/
def insertByDesc {α : Type} (key : α → String) (x : α) : List α → List α
  | [] => [x]
  | y :: ys => if strLt (key y) (key x) then x :: y :: ys else y :: insertByDesc key x ys

/-- Stable descending sort by a string key (Python `sorted(..., reverse=True)`). -/
def sortByDesc {α : Type} (key : α → String) : List α → List α
  | [] => []
  | x :: xs => insertByDesc key x (sortByDesc key xs)

/-! ## Data model -/

/-- One stored chat message (`{role, content, timestamp}`). -/
structure Message where
  role : String
  content : String
  timestamp : String
deriving DecidableEq, Repr

/-! ## ChatCore (`src/chat/services/chat_core.py`) -/

/-- Token cleanup applied to completions in `ChatCore.send_message`:
`content.replace('<s>', '').replace('</s>', '').strip()`. -/
def cleanupContent (s : String) : String :=
  pyStrip (pyReplace (pyReplace s "<s>" "") "</s>" "")

/-- Outcome of one provider attempt inside `send_message`'s retry loop:
an exception from the HTTP call (or JSON decoding), a response without
usable `choices`, or the raw completion text. -/
inductive ApiAttempt where
  | exc (msg : String)
  | noChoices
  | ok (content : String)
deriving DecidableEq, Repr

/-- An attempt that triggers a retry: exception, missing choices, or a
completion that is empty after token cleanup. -/
def attemptFails : ApiAttempt → Bool
  | .exc _ => true
  | .noChoices => true
  | .ok c => cleanupContent c == ""

/-- Formatting of `last_error` in the final `f"ERROR: {last_error}"`
(`None` prints as `"None"`). -/
def optErrStr : Option String → String
  | none => "None"
  | some s => s

/-- Result of `ChatCore.send_message`: the returned string, the in-memory
message list afterwards, whether `_save_history` ran, how many provider
attempts were made, and how many fixed delays (`time.sleep(2)`) happened. -/
structure SendOutcome where
  returned : String
  messages : List Message
  saved : Bool
  providerCalls : Nat
  delays : Nat
deriving DecidableEq, Repr

/-- The retry loop of `send_message` (`for attempt in range(max_retries)`),
unrolled over the remaining `fuel` iterations starting at index `i`.
State carried: `assistant_message` (`none` = Python `None`), `last_error`,
the count of provider attempts and of inserted delays. -/
def sendLoop (attempts : Nat → ApiAttempt) (i fuel : Nat)
    (am lastError : Option String) (calls delays : Nat) :
    Option String × Option String × Nat × Nat :=
  match fuel with
  | 0 => (am, lastError, calls, delays)
  | Nat.succ fuel2 =>
    let delays2 := if 0 < i then delays + 1 else delays
    let calls2 := calls + 1
    match attempts i with
    | ApiAttempt.exc m =>
        sendLoop attempts (i + 1) fuel2 am (some m) calls2 delays2
    | ApiAttempt.noChoices =>
        sendLoop attempts (i + 1) fuel2 am
          (some "No response content from API.") calls2 delays2
    | ApiAttempt.ok c =>
        let cleaned := cleanupContent c
        if cleaned = "" then
          sendLoop attempts (i + 1) fuel2 (some cleaned)
            (some "The model returned an empty response.") calls2 delays2
        else
          (some cleaned, lastError, calls2, delays2)

/-- `ChatCore.send_message`.  `messages` is the current in-memory log,
`userTs`/`asstTs` the timestamps computed at append time, and `attempts`
the provider behaviour per attempt index.  `max_retries = 2`. -/
def send_message (messages : List Message) (user_input : String)
    (skip_user_save : Bool) (userTs asstTs : String)
    (attempts : Nat → ApiAttempt) : SendOutcome :=
  let msgs :=
    if skip_user_save then messages
    else messages ++ [⟨"user", user_input, userTs⟩]
  match sendLoop attempts 0 2 none none 0 0 with
  | (am, lastError, calls, delays) =>
    match am with
    | some s =>
      if s = "" then
        { returned := "ERROR: " ++ optErrStr lastError ++ " (tried 2 times)",
          messages := msgs, saved := false,
          providerCalls := calls, delays := delays }
      else
        { returned := s,
          messages := msgs ++ [⟨"assistant", s, asstTs⟩], saved := true,
          providerCalls := calls, delays := delays }
    | none =>
        { returned := "ERROR: " ++ optErrStr lastError ++ " (tried 2 times)",
          messages := msgs, saved := false,
          providerCalls := calls, delays := delays }

/-- `ChatCore._load_history`: contents of a session file as far as the loader
distinguishes them.  `dict` is a parsed JSON object (fields optional), `rawList`
a parsed JSON value that is not a dict (legacy: a bare message list), `corrupt`
a file whose parse raised. -/
inductive SessionFileData where
  | dict (title persona : Option String) (pinned : Option Bool) (messages : List Message)
  | rawList (messages : List Message)
  | corrupt
deriving DecidableEq, Repr

/-- The session state `ChatCore.__init__` / `_load_history` produce:
`self.title`, `self.persona`, `self.messages`. -/
structure LoadedSession where
  title : String
  persona : String
  messages : List Message
deriving DecidableEq, Repr

/-- `ChatCore._load_history` (with `__init__`'s defaults): `file = none` means
the history file does not exist; a parse failure returns `[]` and leaves
`title`/`persona` at their prior values. -/
def load_history (file : Option SessionFileData) (defaultPersona : String) : LoadedSession :=
  match file with
  | none => ⟨"New Chat", defaultPersona, []⟩
  | some (.dict t p _ msgs) => ⟨t.getD "New Chat", p.getD defaultPersona, msgs⟩
  | some (.rawList msgs) => ⟨"New Chat", defaultPersona, msgs⟩
  | some .corrupt => ⟨"New Chat", defaultPersona, []⟩

/-- One entry of the provider payload (`{role, content}`; timestamps are not
sent). -/
structure PayloadMsg where
  role : String
  content : String
deriving DecidableEq, Repr

/-- Python `xs[-w:]`: the last `w` elements, except that `w = 0` yields the
whole list (`xs[-0:] == xs[0:]`). -/
def pySliceLast {α : Type} (w : Nat) (xs : List α) : List α :=
  if w = 0 then xs else xs.drop (xs.length - w)

/-- `ChatCore._get_payload_messages`.  `timeCtx` stands for the time-context
block computed from `datetime.now` at send time (its text depends only on the
clock and timezones, which are outside the embedding); the code prepends it to
the system prompt.  A falsy (empty) `system_prompt` skips the system message
entirely. -/
def get_payload_messages (system_prompt timeCtx : String)
    (messages : List Message) (context_history_limit : Nat) : List PayloadMsg :=
  let payload : List PayloadMsg :=
    if system_prompt ≠ "" then [⟨"system", timeCtx ++ system_prompt⟩] else []
  let window_size := context_history_limit * 2
  let recent := pySliceLast window_size messages
  payload ++ recent.map (fun m => ⟨m.role, m.content⟩)

/-! ## Summarizer (`src/chat/services/summarizer.py`)

The HTTP call is abstracted as an `Option String` input (`none` = the request
or JSON access raised; `some raw` = `data['choices'][0]['message']['content']`).
The prompt strings handed to the provider are not modelled, since the provider
is abstract. -/

/-- `Summarizer._clean_title`: strip artifact tokens, quotes, trailing
punctuation, and collapse whitespace. -/
def clean_title (t : String) : String :=
  let t1 := pyReplace (pyReplace (pyReplace (pyReplace (pyReplace (pyReplace
    (pyReplace (pyReplace t "<s>" "") "</s>" "") "[INST]" "") "[/INST]" "")
    "<<SYS>>" "") "<</SYS>>" "") "###" "") "Prompt" ""
  let t2 := pyStrip (pyReplace (pyReplace t1 "\"" "") squote "")
  let t3 := pyRstrip t2 ['.', ':', ';', ',', '!', '?']
  collapseWs t3

/-- `Summarizer._has_artifacts`. -/
def has_artifacts (t : String) : Bool :=
  ["[", "]", "<", ">", "#", "\n", "Prompt", "INST", "SYS"].any (fun p => pyIn p t)

/-- The user-prompt fallback of `generate_title`:
`user_prompt[:50] + ("..." if len(user_prompt) > 50 else "")`. -/
def titleFallback (user_prompt : String) : String :=
  String.mk (user_prompt.data.take 50) ++ (if 50 < user_prompt.length then "..." else "")

/-- `Summarizer.generate_title` (the choice between the two generation prompts
only affects the abstracted provider call). -/
def generate_title (user_prompt assistant_response : String) (api : Option String) : String :=
  if user_prompt = "" ∧ assistant_response = "" then "New Chat"
  else if user_prompt = "" then "New Chat"
  else
    match api with
    | none => titleFallback user_prompt
    | some raw =>
      let title := clean_title (pyStrip raw)
      if title = "" ∨ title.length < 3 ∨ 50 < title.length ∨ has_artifacts title then
        titleFallback user_prompt
      else title

/-- `Summarizer.update_long_term_memory`.  `ltmFile` is the LTM file content
(`none` = file absent); the result is the file content afterwards.  The
aggregation of user messages, legacy-format detection and the rewrite prompt
only feed the abstracted provider call `api`. -/
def update_long_term_memory (messages : List Message) (ltmFile : Option String)
    (api : Option String) : Option String :=
  if messages.isEmpty then ltmFile
  else
    let existing := ltmFile.getD ""
    match api with
    | none => ltmFile
    | some raw =>
      let updated := cleanupContent (pyStrip raw)
      if updated.length < 10 ∧ 50 < existing.length then ltmFile
      else some updated

/-! ## utils (`src/chat/utils.py`) -/

/-- `title_has_artifacts` from `utils.py` (the view-side malformed-title
check; note the extra, redundant `'###'` pattern). -/
def title_has_artifacts (t : String) : Bool :=
  if t = "" ∨ t = "New Chat" then false
  else ["[", "]", "<", ">", "#", "\n", "Prompt", "INST", "SYS", "###"].any (fun p => pyIn p t)

/-- A session row in the sidebar listing (`get_sessions_with_titles`). -/
structure SessionEntry where
  id : String
  title : String
  persona : String
  pinned : Bool
deriving DecidableEq, Repr

/-- The per-file body of `get_sessions_with_titles`: defaulted field reads for
a parsed dict, fixed fallbacks for a non-dict value, and the `"Error Loading"`
placeholder when reading/parsing raised. -/
def entryOfFile : String × SessionFileData → SessionEntry
  | (fid, .dict t p pin _) => ⟨fid, t.getD "New Chat", p.getD "assistant", pin.getD false⟩
  | (fid, .rawList _) => ⟨fid, "Old Session", "assistant", false⟩
  | (fid, .corrupt) => ⟨fid, "Error Loading", "assistant", false⟩

/-- `get_sessions_with_titles`, over the directory's `.json` files (name and
parse outcome): map each file, then sort by id descending. -/
def get_sessions_with_titles (files : List (String × SessionFileData)) : List SessionEntry :=
  sortByDesc (fun e => e.id) (files.map entryOfFile)

/-- Key-collection step for `group_sessions_by_persona`'s `defaultdict`:
record a persona the first time it is seen. -/
def pkStep (ks : List String) (s : SessionEntry) : List String :=
  if s.persona ∈ ks then ks else ks ++ [s.persona]

/-- Persona keys in first-occurrence order — the iteration order of the
`defaultdict` built by `group_sessions_by_persona`. -/
def personaKeys (l : List SessionEntry) : List String :=
  l.foldl pkStep []

/-- `group_sessions_by_persona`: split off pinned sessions, bucket the rest by
persona (insertion order preserved), order the buckets by the id of their
first (newest-first) session, descending. -/
def group_sessions_by_persona (sessions : List SessionEntry) :
    List SessionEntry × List (String × List SessionEntry) :=
  let pinned := sessions.filter (fun s => s.pinned)
  let unpinned := sessions.filter (fun s => !s.pinned)
  let groupFor := fun p => unpinned.filter (fun s => s.persona = p)
  let keyFor := fun p => ((groupFor p).head?.map (fun s => s.id)).getD ""
  let persona_order := sortByDesc keyFor (personaKeys unpinned)
  (pinned, persona_order.map (fun p => (p, groupFor p)))

/-! ## Title tiering in the send view (`src/chat/views.py`, `send_message`) -/

/-- The title-generation tiers of the `send_message` view: regenerate when the
title is still the placeholder, or when it is detected as malformed — in both
cases only for a non-error response and a nonempty first user message. -/
def turn_title (title assistant_message first_user_msg : String)
    (api : Option String) : String :=
  if title = "New Chat" ∧ pyStartsWith assistant_message "ERROR:" = false
      ∧ first_user_msg ≠ "" then
    generate_title first_user_msg assistant_message api
  else if title_has_artifacts title = true
      ∧ pyStartsWith assistant_message "ERROR:" = false ∧ first_user_msg ≠ "" then
    generate_title first_user_msg assistant_message api
  else title

/-! ## User context files (`src/chat/services/user_context.py`) -/

/-- A file of the user-context directory as `list_files` sees it: name,
content, and the `enabled` flag from the sibling config (default `True`). -/
structure ContextFile where
  name : String
  content : String
  enabled : Bool
deriving DecidableEq, Repr

/-- `list_files`: sorted directory listing, restricted to `.md`/`.txt`
files other than `config.json`. -/
def list_files (dir : List ContextFile) : List ContextFile :=
  (sortByAsc (fun f => f.name) dir).filter
    (fun f => (pyEndsWith f.name ".md" || pyEndsWith f.name ".txt")
      && f.name ≠ "config.json")

/-- `load_enabled_context`: banner, explanatory note, then each enabled file
with its own header, joined with newlines. -/
def load_enabled_context (dir : List ContextFile) : String :=
  let files := list_files dir
  let enabled := files.filter (fun f => f.enabled)
  if enabled.isEmpty then ""
  else
    let parts :=
      "--- USER CONTEXT FILES ---"
        :: "The following files were provided by the user as additional context.\n"
        :: enabled.foldr (fun f acc =>
            ("--- " ++ f.name ++ " ---") :: f.content :: "" :: acc) []
    joinWith "\n" parts

/-! ## Context assembly (`src/chat/services/context_manager.py`) -/

/-- The framing block prepended to the LTM document by `load_context`. -/
def ltmFraming : String :=
  "--- USER PROFILE (BACKGROUND KNOWLEDGE) ---\n"
  ++ "The following information describes the USER (not you). "
  ++ "Use this to understand who you" ++ squote ++ "re talking to, "
  ++ "but DO NOT let it change your personality or communication style. "
  ++ "If it mentions how the user writes or speaks, that describes THEM, "
  ++ "not how YOU should respond. "
  ++ "Maintain your own personality" ++ squote
  ++ "s communication standards at all times.\n\n"

/-- `load_context`.  `personaDir` is the persona directory listing with file
contents (`none` = directory missing, which produces the warning block);
`userDir` the user-context directory; `ltm` the LTM file content if present. -/
def load_context (personaDir : Option (List (String × String)))
    (personaDirPath : String) (userDir : List ContextFile)
    (ltm : Option String) : String :=
  let base :=
    match personaDir with
    | some files =>
      ((sortByAsc (fun f => f.1) files).filter (fun f => pyEndsWith f.1 ".md")).foldl
        (fun acc f =>
          acc ++ "--- SYSTEM INSTRUCTION: " ++ f.1 ++ " ---\n" ++ f.2 ++ "\n\n") ""
    | none =>
      "--- WARNING: Personality not found ---\n"
        ++ "Expected directory: " ++ personaDirPath ++ "\n\n"
  let user_context := load_enabled_context userDir
  let withUser := if user_context ≠ "" then base ++ user_context ++ "\n\n" else base
  let withLtm :=
    match ltm with
    | some l => withUser ++ ltmFraming ++ l ++ "\n\n"
    | none => withUser
  pyStrip withLtm

/-! ## Filesystem paths touched by the context-file operations

Paths are modelled as component lists (the segments between `/`).  `normalize`
resolves `.`/`..`/empty segments the way the OS resolves the final path, so
"the path actually accessed lies inside the context directory" is a statement
about `normalize`. -/

/-- Split a string on `/` into raw segments. -/
def splitSlash : List Char → List (List Char)
  | [] => [[]]
  | c :: rest =>
    match splitSlash rest with
    | [] => []
    | p :: ps => if c = '/' then [] :: p :: ps else (c :: p) :: ps

/-- Path components of a string: `/`-separated segments, empties dropped. -/
def pathComponents (s : String) : List String :=
  ((splitSlash s.data).map String.mk).filter (fun c => c ≠ "")

/-- One step of path resolution: `.`/empty segments vanish, `..` pops. -/
def normStep (stack : List String) (c : String) : List String :=
  if c = "." ∨ c = "" then stack
  else if c = ".." then stack.dropLast
  else stack ++ [c]

/-- Resolve `.`/`..`/empty segments of a rooted component list. -/
def normalize (cs : List String) : List String := cs.foldl normStep []

/-- Bool prefix test on component lists. -/
def listPrefixOf : List String → List String → Bool
  | [], _ => true
  | _ :: _, [] => false
  | a :: as, b :: bs => (a = b) && listPrefixOf as bs

/-- The resolved path lies strictly inside directory `dir`. -/
def insideDir (dir target : List String) : Bool :=
  listPrefixOf dir (normalize target) && dir.length < (normalize target).length

/-- Python `os.path.basename`: the suffix after the last `/`. -/
def pyBasename (s : String) : String :=
  String.mk (s.data.reverse.takeWhile (fun c => c ≠ '/')).reverse

/-- `pathlib`'s `dir / name`: an absolute `name` replaces the base. -/
def pyJoin (dir : List String) (name : String) : List String :=
  if pyStartsWith name "/" then pathComponents name else dir ++ pathComponents name

/-- The path `upload_file` touches for a given caller-supplied filename:
`none` when the extension gate rejects the name before any filesystem access,
otherwise `context_dir / os.path.basename(filename)`. -/
def upload_file_path (dir : List String) (filename : String) : Option (List String) :=
  if pyEndsWith filename ".md" || pyEndsWith filename ".txt" then
    some (pyJoin dir (pyBasename filename))
  else none

/-- The path `delete_file` (and `toggle_file`'s config key) uses:
`context_dir / os.path.basename(filename)` — no extension gate. -/
def delete_file_path (dir : List String) (filename : String) : List String :=
  pyJoin dir (pyBasename filename)

/-- The path the `get_context_file_content` / `save_context_file_content`
views read/write: `get_user_context_dir() / filename`, with the raw
request-supplied filename. -/
def edit_file_path (dir : List String) (filename : String) : List String :=
  pyJoin dir filename

/-! ## Persona CRUD (`src/chat/views.py`: `create_persona`, `save_persona_file`,
`delete_persona`)

The persona store is the `personalities` directory: one sub-directory per
persona, holding files.  `get_available_personas` counts only directories that
contain at least one `.md` file.  Sessions and the `DEFAULT_PERSONA` config
pointer are carried along because `delete_persona`/`save_persona_file`
propagate renames and re-point the default. -/

/-- One persona directory: its name and the names of its files. -/
structure PersonaDir where
  name : String
  files : List String
deriving DecidableEq, Repr

/-- A directory counts as a persona when it holds at least one `.md` file. -/
def personaValid (d : PersonaDir) : Bool :=
  d.files.any (fun f => pyEndsWith f ".md")

/-- The state the persona views mutate: persona directories, the session
files' persona bindings (id, persona), and the default-persona pointer. -/
structure AppState where
  personas : List PersonaDir
  sessions : List (String × String)
  defaultPersona : String
deriving DecidableEq, Repr

/-- `get_available_personalities`: names of valid persona directories,
sorted. -/
def availablePersonas (st : AppState) : List String :=
  sortByAsc id ((st.personas.filter personaValid).map (fun d => d.name))

/-- The synchronous rejection reasons (and success) the persona views return. -/
inductive OpResponse where
  | needName
  | notFound
  | onlyPersona
  | invalidName
  | duplicate
  | ok
deriving DecidableEq, Repr

/-- `_update_sessions_persona`: re-point every session bound to `oldName`. -/
def update_sessions_persona (sessions : List (String × String))
    (oldName newName : String) : List (String × String) :=
  sessions.map (fun s => if s.2 = oldName then (s.1, newName) else s)

/-- Name validation shared by `create_persona` and renames:
`all(c.isalnum() or c == '_' for c in name)`. -/
def validPersonaName (name : String) : Bool :=
  name.data.all (fun c => c.isAlphanum || c = '_')

/-- `create_persona`: validations, then a fresh directory holding
`identity.md`. -/
def create_persona (st : AppState) (inputName : String) : OpResponse × AppState :=
  let name := pyStrip inputName
  if name = "" then (.needName, st)
  else if !validPersonaName name then (.invalidName, st)
  else if st.personas.any (fun d => d.name = name) then (.duplicate, st)
  else (.ok, { st with personas := st.personas ++ [⟨name, ["identity.md"]⟩] })

/-- `save_persona_file`: without a rename it only rewrites the first `.md`
file's content (no structural change); with a rename it validates the new
name, moves the directory, re-points sessions and the default pointer. -/
def save_persona_file (st : AppState) (inputPersona inputNewName : String) :
    OpResponse × AppState :=
  let persona := pyStrip inputPersona
  let newName := pyStrip inputNewName
  if persona = "" then (.needName, st)
  else if newName ≠ "" ∧ newName ≠ persona then
    if !validPersonaName newName then (.invalidName, st)
    else if st.personas.any (fun d => d.name = newName) then (.duplicate, st)
    else if st.personas.any (fun d => d.name = persona) then
      (.ok,
        { personas := st.personas.map (fun d =>
            if d.name = persona then { d with name := newName } else d),
          sessions := update_sessions_persona st.sessions persona newName,
          defaultPersona :=
            if st.defaultPersona = persona then newName else st.defaultPersona })
    else (.notFound, st)
  else (.ok, st)

/-- `delete_persona`: reject an empty name, a missing directory, or a delete
that would leave at most zero available personas (`len(available) <= 1`);
otherwise remove the directory, re-point the default if it was deleted, and
re-bind that persona's sessions to the default. -/
def delete_persona (st : AppState) (inputName : String) : OpResponse × AppState :=
  let persona := pyStrip inputName
  if persona = "" then (.needName, st)
  else if !st.personas.any (fun d => d.name = persona) then (.notFound, st)
  else if (availablePersonas st).length ≤ 1 then (.onlyPersona, st)
  else
    let st2 := { st with personas := st.personas.filter (fun d => d.name ≠ persona) }
    if st.defaultPersona = persona then
      match availablePersonas st2 with
      | a :: _ =>
        (.ok, { st2 with
                defaultPersona := a
                sessions := update_sessions_persona st2.sessions persona a })
      | [] =>
        (.ok, { st2 with
                sessions := update_sessions_persona st2.sessions persona st.defaultPersona })
    else
      (.ok, { st2 with
              sessions := update_sessions_persona st2.sessions persona st.defaultPersona })

/-- One persona operation, as fired by the views. -/
inductive PersonaOp where
  | create (name : String)
  | save (persona newName : String)
  | del (name : String)
deriving DecidableEq, Repr

/-- Apply one persona operation to the state. -/
def applyOp (st : AppState) : PersonaOp → AppState
  | .create n => (create_persona st n).2
  | .save p n => (save_persona_file st p n).2
  | .del n => (delete_persona st n).2

/-- Apply a sequence of persona operations. -/
def applyOps (st : AppState) (ops : List PersonaOp) : AppState :=
  ops.foldl applyOp st

/-- Number of valid persona directories. -/
def validCount (st : AppState) : Nat := st.personas.countP personaValid

/-- Well-formedness carried through persona operations: directory names are
unique (as on a filesystem) and at least one valid persona exists. -/
def wfInv (st : AppState) : Prop :=
  (st.personas.map (fun d => d.name)).Nodup ∧ 1 ≤ validCount st

/-! ## General lemmas -/

/-- Matching `[c]` inside a list is just membership of `c`. -/
theorem listContainsSub_single (c : Char) (l : List Char) :
    listContainsSub [c] l = l.any (fun x => x = c) := by
  induction l with
  | nil => rfl
  | cons a rest ih => simp [listContainsSub, listStartsWith, ih]

/-- `pyIn` with a one-character pattern is character membership. -/
theorem pyIn_char_data (c : Char) (p : String) (hp : p.data = [c]) (s : String) :
    pyIn p s = s.data.any (fun x => x = c) := by
  rw [pyIn, hp, listContainsSub_single]

/-- `'[' in s` is membership of the bracket character. -/
theorem pyIn_lbracket (s : String) : pyIn "[" s = s.data.any (fun x => x = '[') :=
  pyIn_char_data '[' "[" rfl s

/-- Bracket occurrence distributes over string append. -/
theorem pyIn_lbracket_append (a b : String) :
    pyIn "[" (a ++ b) = (pyIn "[" a || pyIn "[" b) := by
  have h : (a ++ b).data = a.data ++ b.data := rfl
  rw [pyIn_lbracket, pyIn_lbracket, pyIn_lbracket, h, List.any_append]

/-- A title that passes the artifact check contains no `[`. -/
theorem has_artifacts_no_lbracket (t : String) (h : has_artifacts t = false) :
    pyIn "[" t = false := by
  unfold has_artifacts at h
  simp only [List.any_cons, List.any_nil, Bool.or_eq_false_iff] at h
  exact h.1

/-- The error sentinel built by `send_message` starts with `"ERROR:"`. -/
theorem startsWith_error_aux (a b : String) :
    pyStartsWith ("ERROR: " ++ a ++ b) "ERROR:" = true := by
  have h : ("ERROR: " ++ a ++ b).data
      = 'E' :: 'R' :: 'R' :: 'O' :: 'R' :: ':' :: ' ' :: (a.data ++ b.data) := rfl
  have h2 : ("ERROR:" : String).data = ['E', 'R', 'R', 'O', 'R', ':'] := rfl
  rw [pyStartsWith, h, h2]
  simp [listStartsWith]

/-! ## C1 — retry exhaustion -/

/-- Claim C1, counterexample: with a provider that never returns choices, the
send returns the `"ERROR:"` string to the caller, but nothing is saved and the
last (and only) in-memory message is the user's — its content does not start
with `"ERROR:"`, so the failed turn is not recorded in the stored transcript. -/
theorem c1_retry_exhaustion_counterexample :
    (send_message [] "hi" false "t1" "t2" (fun _ => ApiAttempt.noChoices)).returned
        = "ERROR: No response content from API. (tried 2 times)" ∧
    (send_message [] "hi" false "t1" "t2" (fun _ => ApiAttempt.noChoices)).saved = false ∧
    (send_message [] "hi" false "t1" "t2" (fun _ => ApiAttempt.noChoices)).messages.map
        (fun m => m.content) = ["hi"] ∧
    pyStartsWith "hi" "ERROR:" = false := by decide

/-- Claim C1 (amended): when every provider attempt fails (exception, missing
choices, or completion empty after `<s>`/`</s>` stripping), `send_message`
makes exactly 2 attempts with one fixed delay before the retry and raises no
exception — it returns a string starting with `"ERROR:"` — but it does not
record the failed turn in the stored transcript: no save happens and the
message log holds only the prior messages plus (unless skipped) the user
message. -/
theorem c1_retry_exhaustion (messages : List Message) (user ts1 ts2 : String)
    (skip : Bool) (attempts : Nat → ApiAttempt)
    (hfail : ∀ i, i < 2 → attemptFails (attempts i) = true) :
    (send_message messages user skip ts1 ts2 attempts).providerCalls = 2 ∧
    (send_message messages user skip ts1 ts2 attempts).delays = 1 ∧
    pyStartsWith (send_message messages user skip ts1 ts2 attempts).returned "ERROR:" = true ∧
    (send_message messages user skip ts1 ts2 attempts).saved = false ∧
    (send_message messages user skip ts1 ts2 attempts).messages
      = (if skip then messages else messages ++ [⟨"user", user, ts1⟩]) := by
  have h0 := hfail 0 (by omega)
  have h1 := hfail 1 (by omega)
  unfold send_message
  cases ha0 : attempts 0 with
  | exc m0 =>
    cases ha1 : attempts 1 with
    | exc m1 => simp [sendLoop, ha0, ha1, startsWith_error_aux]
    | noChoices => simp [sendLoop, ha0, ha1, startsWith_error_aux]
    | ok c1 =>
      rw [ha1, attemptFails] at h1
      have hc1 : cleanupContent c1 = "" := by simpa using h1
      simp [sendLoop, ha0, ha1, hc1, startsWith_error_aux]
  | noChoices =>
    cases ha1 : attempts 1 with
    | exc m1 => simp [sendLoop, ha0, ha1, startsWith_error_aux]
    | noChoices => simp [sendLoop, ha0, ha1, startsWith_error_aux]
    | ok c1 =>
      rw [ha1, attemptFails] at h1
      have hc1 : cleanupContent c1 = "" := by simpa using h1
      simp [sendLoop, ha0, ha1, hc1, startsWith_error_aux]
  | ok c0 =>
    rw [ha0, attemptFails] at h0
    have hc0 : cleanupContent c0 = "" := by simpa using h0
    cases ha1 : attempts 1 with
    | exc m1 => simp [sendLoop, ha0, ha1, hc0, startsWith_error_aux]
    | noChoices => simp [sendLoop, ha0, ha1, hc0, startsWith_error_aux]
    | ok c1 =>
      rw [ha1, attemptFails] at h1
      have hc1 : cleanupContent c1 = "" := by simpa using h1
      simp [sendLoop, ha0, ha1, hc0, hc1, startsWith_error_aux]

/-- Witness for C1's amended theorem at a concrete always-empty provider. -/
theorem c1_retry_exhaustion_witness :
    (send_message [] "ping" false "t1" "t2" (fun _ => ApiAttempt.ok "<s></s>")).providerCalls = 2 ∧
    (send_message [] "ping" false "t1" "t2" (fun _ => ApiAttempt.ok "<s></s>")).delays = 1 ∧
    pyStartsWith (send_message [] "ping" false "t1" "t2"
        (fun _ => ApiAttempt.ok "<s></s>")).returned "ERROR:" = true ∧
    (send_message [] "ping" false "t1" "t2" (fun _ => ApiAttempt.ok "<s></s>")).saved = false ∧
    (send_message [] "ping" false "t1" "t2" (fun _ => ApiAttempt.ok "<s></s>")).messages
      = (if false then [] else [] ++ [⟨"user", "ping", "t1"⟩]) :=
  c1_retry_exhaustion [] "ping" "t1" "t2" false (fun _ => ApiAttempt.ok "<s></s>")
    (fun _ _ => rfl)

/-! ## C2 — memory safety guard -/

/-- Claim C2 (confirmed): if the rewrite response is shorter than 10
characters after artifact stripping while the existing LTM document is longer
than 50 characters, `update_long_term_memory` discards the response and the
file content is unchanged. -/
theorem c2_memory_safety_guard (messages : List Message) (existing raw : String)
    (hshort : (cleanupContent (pyStrip raw)).length < 10)
    (hlong : 50 < existing.length) :
    update_long_term_memory messages (some existing) (some raw) = some existing := by
  unfold update_long_term_memory
  by_cases h : messages.isEmpty
  · simp [h]
  · simp [h, hshort, hlong]

/-- Witness for C2 at a 51-character memory and a 2-character response. -/
theorem c2_memory_safety_guard_witness :
    (cleanupContent (pyStrip "hi")).length < 10 ∧
    50 < ("aaaaaaaaaaaaaaaaaaaaaaaaaaaaaaaaaaaaaaaaaaaaaaaaaaa" : String).length ∧
    update_long_term_memory [⟨"user", "x", "t"⟩]
        (some "aaaaaaaaaaaaaaaaaaaaaaaaaaaaaaaaaaaaaaaaaaaaaaaaaaa") (some "hi")
      = some "aaaaaaaaaaaaaaaaaaaaaaaaaaaaaaaaaaaaaaaaaaaaaaaaaaa" :=
  ⟨by decide, by decide,
    c2_memory_safety_guard [⟨"user", "x", "t"⟩]
      "aaaaaaaaaaaaaaaaaaaaaaaaaaaaaaaaaaaaaaaaaaaaaaaaaaa" "hi"
      (by decide) (by decide)⟩

/-! ## C6 — bracket titles after a turn -/

/-- Claim C6, counterexample: title `"[x"` contains `[`, the response `"ok"`
is not an error, the title is regenerated — but generation raises and falls
back to the first user message `"[hello"`, so the post-turn title still
contains `[`. -/
theorem c6_title_bracket_counterexample :
    pyIn "[" "[x" = true ∧
    pyStartsWith "ok" "ERROR:" = false ∧
    turn_title "[x" "ok" "[hello" none = "[hello" ∧
    pyIn "[" "[hello" = true := by decide

/-- Claim C6 (amended): for a turn whose title contains `[`, whose response
does not start with `"ERROR:"` and whose first user message is nonempty, the
title is regenerated, and the regenerated title is bracket-free provided the
fallback source — the first 50 characters of the user prompt — is itself
bracket-free (the accepted model title is always bracket-free by the
acceptance gate). -/
theorem c6_title_bracket (title resp fum : String) (api : Option String)
    (hbr : pyIn "[" title = true)
    (herr : pyStartsWith resp "ERROR:" = false)
    (hfum : fum ≠ "")
    (hfb : pyIn "[" (String.mk (fum.data.take 50)) = false) :
    pyIn "[" (turn_title title resp fum api) = false := by
  have hnc : title ≠ "New Chat" := by
    intro he
    rw [he] at hbr
    exact absurd hbr (by decide)
  have hne : title ≠ "" := by
    intro he
    rw [he] at hbr
    exact absurd hbr (by decide)
  have hart : title_has_artifacts title = true := by
    unfold title_has_artifacts
    rw [if_neg (by simp [hne, hnc])]
    simp [List.any_cons, hbr]
  have hfallback : pyIn "[" (titleFallback fum) = false := by
    unfold titleFallback
    rw [pyIn_lbracket_append]
    by_cases h50 : 50 < fum.length
    · simp [h50, hfb, (by decide : pyIn "[" "..." = false)]
    · simp [h50, hfb, (by decide : pyIn "[" "" = false)]
  unfold turn_title
  rw [if_neg (by simp [hnc]), if_pos ⟨hart, herr, hfum⟩]
  cases api with
  | none =>
    have hstep : generate_title fum resp none = titleFallback fum := by
      simp [generate_title, hfum]
    rw [hstep]
    exact hfallback
  | some raw =>
    have hstep : generate_title fum resp (some raw)
        = (if clean_title (pyStrip raw) = "" ∨ (clean_title (pyStrip raw)).length < 3
              ∨ 50 < (clean_title (pyStrip raw)).length
              ∨ has_artifacts (clean_title (pyStrip raw))
           then titleFallback fum else clean_title (pyStrip raw)) := by
      simp [generate_title, hfum]
    rw [hstep]
    by_cases hgate : (clean_title (pyStrip raw) = "" ∨ (clean_title (pyStrip raw)).length < 3
        ∨ 50 < (clean_title (pyStrip raw)).length ∨ has_artifacts (clean_title (pyStrip raw)))
    · rw [if_pos hgate]
      exact hfallback
    · rw [if_neg hgate]
      push_neg at hgate
      exact has_artifacts_no_lbracket _ (by simpa using hgate.2.2.2)

/-- Witness for C6's amended theorem at a malformed concrete title. -/
theorem c6_title_bracket_witness :
    pyIn "[" (turn_title "[INST] chat" "All good." "tell me about salt" none) = false :=
  c6_title_bracket "[INST] chat" "All good." "tell me about salt" none
    (by decide) (by decide) (by decide) (by decide)

/-! ## C7 — title acceptance gate -/

/-- Claim C7, counterexample: with an empty user prompt, `generate_title`
returns `"New Chat"` — not the (empty) 50-character truncation of the
prompt — even though a valid model title was produced. -/
theorem c7_title_gate_counterexample :
    generate_title "" "hello" (some "A Valid Title") = "New Chat" ∧
    String.mk (("" : String).data.take 50) ++ (if 50 < ("" : String).length then "..." else "")
      = "" ∧
    ("New Chat" : String) ≠ "" := by decide

/-- Claim C7 (amended): for a nonempty user prompt, `generate_title` returns
the cleaned model title exactly when it is 3–50 characters and artifact-free;
in every other case — gate failure or an exception during generation — it
returns the first 50 characters of the prompt with `"..."` appended exactly
when the prompt exceeds 50 characters.  (For an empty prompt it returns
`"New Chat"` instead.) -/
theorem c7_title_gate (up resp : String) (api : Option String) (hup : up ≠ "") :
    (api = none → generate_title up resp api
        = String.mk (up.data.take 50) ++ (if 50 < up.length then "..." else "")) ∧
    (∀ raw, api = some raw →
      (3 ≤ (clean_title (pyStrip raw)).length ∧ (clean_title (pyStrip raw)).length ≤ 50
          ∧ has_artifacts (clean_title (pyStrip raw)) = false →
        generate_title up resp api = clean_title (pyStrip raw)) ∧
      (¬(3 ≤ (clean_title (pyStrip raw)).length ∧ (clean_title (pyStrip raw)).length ≤ 50
          ∧ has_artifacts (clean_title (pyStrip raw)) = false) →
        generate_title up resp api
          = String.mk (up.data.take 50) ++ (if 50 < up.length then "..." else ""))) := by
  constructor
  · intro hnone
    subst hnone
    simp [generate_title, titleFallback, hup]
  · intro raw hsome
    subst hsome
    constructor
    · intro ⟨h3, h50, hart⟩
      have hgate : ¬(clean_title (pyStrip raw) = "" ∨ (clean_title (pyStrip raw)).length < 3
          ∨ 50 < (clean_title (pyStrip raw)).length ∨ has_artifacts (clean_title (pyStrip raw))) := by
        push_neg
        refine ⟨?_, by omega, by omega, by simp [hart]⟩
        intro he
        rw [he] at h3
        simp at h3
      simp [generate_title, hup, hgate]
    · intro hng
      have hgate : (clean_title (pyStrip raw) = "" ∨ (clean_title (pyStrip raw)).length < 3
          ∨ 50 < (clean_title (pyStrip raw)).length ∨ has_artifacts (clean_title (pyStrip raw))) := by
        by_contra hc
        push_neg at hc
        obtain ⟨he, h3, h50, hart⟩ := hc
        exact hng ⟨by omega, by omega, by simpa using hart⟩
      have hstep : generate_title up resp (some raw)
          = (if clean_title (pyStrip raw) = "" ∨ (clean_title (pyStrip raw)).length < 3
                ∨ 50 < (clean_title (pyStrip raw)).length
                ∨ has_artifacts (clean_title (pyStrip raw))
             then titleFallback up else clean_title (pyStrip raw)) := by
        simp [generate_title, hup]
      rw [hstep, if_pos hgate]
      simp [titleFallback]

/-- Witness for C7 at a prompt and an accepted model title. -/
theorem c7_title_gate_witness :
    generate_title "Hi there" "resp" (some " Good Title ") = "Good Title" :=
  ((c7_title_gate "Hi there" "resp" (some " Good Title ") (by decide)).2
    " Good Title " rfl).1 ⟨by decide, by decide, by decide⟩

/-! ## Sorting permutation lemmas -/

/-- Descending insertion permutes. -/
theorem insertByDesc_perm {α : Type} (key : α → String) (x : α) (l : List α) :
    (insertByDesc key x l).Perm (x :: l) := by
  induction l with
  | nil => exact List.Perm.refl _
  | cons y ys ih =>
    unfold insertByDesc
    by_cases h : strLt (key y) (key x)
    · simp [h]
    · simp only [h, Bool.false_eq_true, if_false]
      exact (ih.cons y).trans (List.Perm.swap x y ys)

/-- Descending sort permutes its input. -/
theorem sortByDesc_perm {α : Type} (key : α → String) (l : List α) :
    (sortByDesc key l).Perm l := by
  induction l with
  | nil => exact List.Perm.refl _
  | cons x xs ih =>
    unfold sortByDesc
    exact (insertByDesc_perm key x _).trans (ih.cons x)

/-- Ascending insertion permutes. -/
theorem insertByAsc_perm {α : Type} (key : α → String) (x : α) (l : List α) :
    (insertByAsc key x l).Perm (x :: l) := by
  induction l with
  | nil => exact List.Perm.refl _
  | cons y ys ih =>
    unfold insertByAsc
    by_cases h : strLt (key x) (key y)
    · simp [h]
    · simp only [h, Bool.false_eq_true, if_false]
      exact (ih.cons y).trans (List.Perm.swap x y ys)

/-- Ascending sort permutes its input. -/
theorem sortByAsc_perm {α : Type} (key : α → String) (l : List α) :
    (sortByAsc key l).Perm l := by
  induction l with
  | nil => exact List.Perm.refl _
  | cons x xs ih =>
    unfold sortByAsc
    exact (insertByAsc_perm key x _).trans (ih.cons x)

/-! ## C4 — history window bound -/

/-- Claim C4, counterexample: with an empty configured system prompt and a
history limit of 0, the payload for a one-message session contains no system
message at all and 1 conversation message, exceeding the claimed `2 x L = 0`
bound (Python `messages[-0:]` is the whole list). -/
theorem c4_history_window_counterexample :
    get_payload_messages "" "TIME" [⟨"user", "hi", "t"⟩] 0 = [⟨"user", "hi"⟩] ∧
    ((get_payload_messages "" "TIME" [⟨"user", "hi", "t"⟩] 0).filter
        (fun m => m.role = "system")).length = 0 ∧
    2 * 0 < (get_payload_messages "" "TIME" [⟨"user", "hi", "t"⟩] 0).length := by decide

/-- Claim C4 (amended): provided the configured system prompt is nonempty,
the payload is exactly one system message — the fresh time header prepended
to the system prompt, in first position — followed by a suffix of the stored
messages; and provided additionally the history limit L is at least 1, that
suffix holds at most `2 x L` conversation messages.  (With an empty system
prompt the system message is omitted; with `L = 0` the window is the whole
message list.) -/
theorem c4_history_window_bound (sys timeCtx : String) (msgs : List Message)
    (L : Nat) (hsys : sys ≠ "") :
    ∃ pre suffix, msgs = pre ++ suffix ∧
      get_payload_messages sys timeCtx msgs L
        = ⟨"system", timeCtx ++ sys⟩ :: suffix.map (fun m => ⟨m.role, m.content⟩) ∧
      (1 ≤ L → suffix.length ≤ 2 * L) := by
  by_cases hL : L = 0
  · refine ⟨[], msgs, by simp, ?_, ?_⟩
    · simp [get_payload_messages, hsys, pySliceLast, hL]
    · intro h
      omega
  · refine ⟨msgs.take (msgs.length - L * 2), msgs.drop (msgs.length - L * 2),
      (List.take_append_drop _ _).symm, ?_, ?_⟩
    · have hw : L * 2 ≠ 0 := by omega
      simp [get_payload_messages, hsys, pySliceLast, hw]
    · intro _
      have := List.length_drop (msgs.length - L * 2) msgs
      omega

/-- Witness for C4's amended theorem: three stored messages, limit 1. -/
theorem c4_history_window_bound_witness :
    ∃ pre suffix,
      ([⟨"user", "a", "1"⟩, ⟨"assistant", "b", "2"⟩, ⟨"user", "c", "3"⟩] : List Message)
        = pre ++ suffix ∧
      get_payload_messages "SYS" "TIME "
          [⟨"user", "a", "1"⟩, ⟨"assistant", "b", "2"⟩, ⟨"user", "c", "3"⟩] 1
        = ⟨"system", "TIME " ++ "SYS"⟩ :: suffix.map (fun m => ⟨m.role, m.content⟩) ∧
      (1 ≤ 1 → suffix.length ≤ 2 * 1) :=
  c4_history_window_bound "SYS" "TIME "
    [⟨"user", "a", "1"⟩, ⟨"assistant", "b", "2"⟩, ⟨"user", "c", "3"⟩] 1 (by decide)

/-! ## C5 — corrupt session files -/

/-- Claim C5, counterexample: loading a session whose file fails to parse
yields the default placeholder (`"New Chat"`, empty messages) — it carries no
error label at all, unlike the claimed error-labeled placeholder (the listing
side does use `"Error Loading"`). -/
theorem c5_corrupt_session_counterexample :
    load_history (some SessionFileData.corrupt) "assistant"
      = ⟨"New Chat", "assistant", []⟩ ∧
    pyIn "Error" "New Chat" = false ∧
    ("New Chat" : String) ≠ "Error Loading" := by decide

/-- Claim C5 (amended): a session file whose content fails to parse loads as
the default placeholder session (title `"New Chat"`, the caller's persona,
empty message list) rather than raising; the sidebar listing keeps every file
— it is a permutation of the per-file entries — mapping a corrupt file to an
`"Error Loading"` placeholder entry while every other file is listed with its
normally computed entry. -/
theorem c5_corrupt_session_handling (dp : String)
    (files : List (String × SessionFileData)) :
    load_history (some SessionFileData.corrupt) dp = ⟨"New Chat", dp, []⟩ ∧
    (get_sessions_with_titles files).Perm (files.map entryOfFile) ∧
    (∀ fid, (fid, SessionFileData.corrupt) ∈ files →
        (⟨fid, "Error Loading", "assistant", false⟩ : SessionEntry)
          ∈ get_sessions_with_titles files) ∧
    (∀ f, f ∈ files → entryOfFile f ∈ get_sessions_with_titles files) := by
  have hperm : (get_sessions_with_titles files).Perm (files.map entryOfFile) :=
    sortByDesc_perm _ _
  refine ⟨rfl, hperm, ?_, ?_⟩
  · intro fid hmem
    have : entryOfFile (fid, SessionFileData.corrupt) ∈ files.map entryOfFile :=
      List.mem_map_of_mem _ hmem
    exact hperm.mem_iff.mpr this
  · intro f hf
    exact hperm.mem_iff.mpr (List.mem_map_of_mem _ hf)

/-- Witness for C5 at a two-file listing with one corrupt file. -/
theorem c5_corrupt_session_handling_witness :
    (⟨"s2.json", "Error Loading", "assistant", false⟩ : SessionEntry)
      ∈ get_sessions_with_titles
          [("s1.json", SessionFileData.dict (some "T") none none []),
           ("s2.json", SessionFileData.corrupt)] :=
  (c5_corrupt_session_handling "assistant"
    [("s1.json", SessionFileData.dict (some "T") none none []),
     ("s2.json", SessionFileData.corrupt)]).2.2.1 "s2.json" (by decide)

/-! ## C10 — session grouping is a partition -/

/-- The key fold keeps its accumulator duplicate-free. -/
theorem pkFold_nodup (l : List SessionEntry) :
    ∀ acc : List String, acc.Nodup → (l.foldl pkStep acc).Nodup := by
  induction l with
  | nil => intro acc h; exact h
  | cons s rest ih =>
    intro acc h
    rw [List.foldl_cons]
    apply ih
    unfold pkStep
    by_cases hm : s.persona ∈ acc
    · simp [hm, h]
    · simp [hm, List.nodup_append, h]

/-- The key fold never loses accumulated keys. -/
theorem pkFold_subset (l : List SessionEntry) :
    ∀ acc : List String, ∀ x ∈ acc, x ∈ l.foldl pkStep acc := by
  induction l with
  | nil => intro acc x hx; exact hx
  | cons s rest ih =>
    intro acc x hx
    rw [List.foldl_cons]
    apply ih
    unfold pkStep
    by_cases hm : s.persona ∈ acc
    · simpa [hm] using hx
    · simp [hm, List.mem_append, hx]

/-- Every listed session's persona ends up among the collected keys. -/
theorem pkFold_complete (l : List SessionEntry) :
    ∀ acc : List String, ∀ s ∈ l, s.persona ∈ l.foldl pkStep acc := by
  induction l with
  | nil => intro acc s hs; cases hs
  | cons t rest ih =>
    intro acc s hs
    rw [List.foldl_cons]
    rcases List.mem_cons.mp hs with h | h
    · subst h
      apply pkFold_subset
      unfold pkStep
      by_cases hm : s.persona ∈ acc
      · simp [hm]
      · simp [hm]
    · exact ih _ s h

/-- The persona keys are duplicate-free. -/
theorem personaKeys_nodup (l : List SessionEntry) : (personaKeys l).Nodup :=
  pkFold_nodup l [] List.nodup_nil

/-- Every listed session's persona has a key. -/
theorem personaKeys_complete (l : List SessionEntry) (s : SessionEntry) (hs : s ∈ l) :
    s.persona ∈ personaKeys l :=
  pkFold_complete l [] s hs

/-- Occurrence count inside a filter. -/
theorem count_filter_eq {α : Type} [DecidableEq α] (p : α → Bool) (a : α) (l : List α) :
    List.count a (l.filter p) = if p a then List.count a l else 0 := by
  by_cases h : p a
  · rw [List.count_filter h, if_pos h]
  · rw [if_neg h, List.count_eq_zero]
    intro hmem
    exact h (List.of_mem_filter hmem)

/-- Summing an indicator over duplicate-free keys picks at most one term. -/
theorem sum_if_nodup (x : String) (c : Nat) (ks : List String) (h : ks.Nodup) :
    (ks.map (fun p => if x = p then c else 0)).sum = if x ∈ ks then c else 0 := by
  induction ks with
  | nil => simp
  | cons k rest ih =>
    rw [List.map_cons, List.sum_cons]
    rcases List.nodup_cons.mp h with ⟨hk, hrest⟩
    by_cases hx : x = k
    · subst hx
      have h0 : (rest.map (fun p => if x = p then c else 0)).sum = 0 := by
        rw [ih hrest, if_neg hk]
      simp [h0]
    · simp only [if_neg hx, Nat.zero_add, ih hrest]
      by_cases hmem : x ∈ rest
      · simp [hmem, List.mem_cons, hx]
      · simp [hmem, List.mem_cons, hx]

/-- Claim C10 (confirmed): `group_sessions_by_persona` partitions its input —
the pinned list is exactly the pinned sessions, every bucket is keyed by a
distinct persona and holds exactly the unpinned sessions of that persona,
every unpinned session's persona has a bucket, and the pinned list together
with all buckets is a permutation of the input (no session dropped or
duplicated). -/
theorem c10_group_partition (sessions : List SessionEntry) :
    (group_sessions_by_persona sessions).1 = sessions.filter (fun s => s.pinned) ∧
    (∀ pr ∈ (group_sessions_by_persona sessions).2,
        pr.2 = sessions.filter (fun s => s.persona = pr.1 && !s.pinned)) ∧
    ((group_sessions_by_persona sessions).2.map Prod.fst).Nodup ∧
    (∀ s ∈ sessions, s.pinned = false →
        s.persona ∈ (group_sessions_by_persona sessions).2.map Prod.fst) ∧
    ((group_sessions_by_persona sessions).1
        ++ ((group_sessions_by_persona sessions).2.map Prod.snd).flatten).Perm sessions := by
  have hdef : group_sessions_by_persona sessions
      = (sessions.filter (fun s => s.pinned),
         (sortByDesc
             (fun p => ((((sessions.filter (fun s => !s.pinned)).filter
                 (fun s => s.persona = p)).head?.map (fun s => s.id)).getD ""))
             (personaKeys (sessions.filter (fun s => !s.pinned)))).map
           (fun p => (p, (sessions.filter (fun s => !s.pinned)).filter
               (fun s => s.persona = p)))) := rfl
  rw [hdef]
  have horder_perm :
      (sortByDesc
          (fun p => ((((sessions.filter (fun s => !s.pinned)).filter
              (fun s => s.persona = p)).head?.map (fun s => s.id)).getD ""))
          (personaKeys (sessions.filter (fun s => !s.pinned)))).Perm
        (personaKeys (sessions.filter (fun s => !s.pinned))) := sortByDesc_perm _ _
  have hfst : ((sortByDesc
          (fun p => ((((sessions.filter (fun s => !s.pinned)).filter
              (fun s => s.persona = p)).head?.map (fun s => s.id)).getD ""))
          (personaKeys (sessions.filter (fun s => !s.pinned)))).map
        (fun p => (p, (sessions.filter (fun s => !s.pinned)).filter
            (fun s => s.persona = p)))).map Prod.fst
      = sortByDesc
          (fun p => ((((sessions.filter (fun s => !s.pinned)).filter
              (fun s => s.persona = p)).head?.map (fun s => s.id)).getD ""))
          (personaKeys (sessions.filter (fun s => !s.pinned))) := by
    rw [List.map_map]
    exact List.map_id' _
  refine ⟨rfl, ?_, ?_, ?_, ?_⟩
  · intro pr hpr
    obtain ⟨p, hp, rfl⟩ := List.mem_map.mp hpr
    simp only []
    rw [List.filter_filter]
  · rw [hfst]
    exact (horder_perm.nodup_iff).mpr (personaKeys_nodup _)
  · intro s hs hpin
    rw [hfst]
    rw [horder_perm.mem_iff]
    apply personaKeys_complete
    rw [List.mem_filter]
    exact ⟨hs, by simp [hpin]⟩
  · rw [List.perm_iff_count]
    intro a
    rw [List.count_append, List.map_map, List.count_flatten, List.map_map]
    have hcount_g : ∀ p : String,
        List.count a ((sessions.filter (fun s => !s.pinned)).filter (fun s => s.persona = p))
          = if a.persona = p then List.count a (sessions.filter (fun s => !s.pinned)) else 0 := by
      intro p
      rw [count_filter_eq]
      by_cases h : a.persona = p
      · rw [if_pos (by simp [h]), if_pos h]
      · rw [if_neg (by simp [h]), if_neg h]
    have hmapeq : ((sortByDesc
          (fun p => ((((sessions.filter (fun s => !s.pinned)).filter
              (fun s => s.persona = p)).head?.map (fun s => s.id)).getD ""))
          (personaKeys (sessions.filter (fun s => !s.pinned)))).map
        (fun p => List.count a ((sessions.filter (fun s => !s.pinned)).filter
            (fun s => s.persona = p))))
        = ((sortByDesc
          (fun p => ((((sessions.filter (fun s => !s.pinned)).filter
              (fun s => s.persona = p)).head?.map (fun s => s.id)).getD ""))
          (personaKeys (sessions.filter (fun s => !s.pinned)))).map
          (fun p => if a.persona = p then
              List.count a (sessions.filter (fun s => !s.pinned)) else 0)) := by
      apply List.map_congr_left
      intro p _
      exact hcount_g p
    rw [show ((fun x => List.count a x) ∘ Prod.snd ∘ (fun p =>
        (p, (sessions.filter (fun s => !s.pinned)).filter (fun s => s.persona = p))))
        = (fun p => List.count a ((sessions.filter (fun s => !s.pinned)).filter
            (fun s => s.persona = p))) from rfl]
    rw [hmapeq, (horder_perm.map (fun p => if a.persona = p then
        List.count a (sessions.filter (fun s => !s.pinned)) else 0)).sum_eq,
      sum_if_nodup _ _ _ (personaKeys_nodup _)]
    rw [count_filter_eq (fun s => s.pinned) a sessions]
    by_cases ha : a.pinned
    · have hU : List.count a (sessions.filter (fun s => !s.pinned)) = 0 := by
        rw [count_filter_eq]
        simp [ha]
      rw [if_pos ha, hU]
      simp
    · have hU : List.count a (sessions.filter (fun s => !s.pinned))
          = List.count a sessions := by
        rw [count_filter_eq]
        simp [ha]
      rw [if_neg ha, hU]
      by_cases hmem : a.persona ∈ personaKeys (sessions.filter (fun s => !s.pinned))
      · rw [if_pos hmem]
        omega
      · rw [if_neg hmem]
        have hz : List.count a sessions = 0 := by
          by_contra hc
          have hpos : 0 < List.count a sessions := Nat.pos_of_ne_zero hc
          have hmem2 : a ∈ sessions := List.count_pos_iff.mp hpos
          have : a ∈ sessions.filter (fun s => !s.pinned) := by
            rw [List.mem_filter]
            exact ⟨hmem2, by simp [ha]⟩
          exact hmem (personaKeys_complete _ a this)
        rw [hz]

/-- Witness for C10: the partition permutation at a concrete session list. -/
theorem c10_group_partition_witness :
    ((group_sessions_by_persona
        [⟨"s3", "A", "alpha", false⟩, ⟨"s2", "B", "beta", true⟩,
         ⟨"s1", "C", "alpha", false⟩]).1
      ++ ((group_sessions_by_persona
        [⟨"s3", "A", "alpha", false⟩, ⟨"s2", "B", "beta", true⟩,
         ⟨"s1", "C", "alpha", false⟩]).2.map Prod.snd).flatten).Perm
      [⟨"s3", "A", "alpha", false⟩, ⟨"s2", "B", "beta", true⟩,
       ⟨"s1", "C", "alpha", false⟩] :=
  (c10_group_partition
    [⟨"s3", "A", "alpha", false⟩, ⟨"s2", "B", "beta", true⟩,
     ⟨"s1", "C", "alpha", false⟩]).2.2.2.2

/-! ## C3 — filename sanitization and path traversal -/

/-- Characterization of the list prefix test. -/
theorem listStartsWith_iff (l pre : List Char) :
    listStartsWith l pre = true ↔ ∃ t, l = pre ++ t := by
  induction pre generalizing l with
  | nil => simp [listStartsWith]
  | cons p ps ih =>
    cases l with
    | nil => simp [listStartsWith]
    | cons c cs =>
      simp only [listStartsWith, Bool.and_eq_true, decide_eq_true_eq, ih,
        List.cons_append, List.cons.injEq]
      constructor
      · rintro ⟨hc, t, ht⟩
        exact ⟨t, hc, ht⟩
      · rintro ⟨t, hc, ht⟩
        exact ⟨hc, t, ht⟩

/-- Resolving a path of plain components (no empty, `.` or `..` segments)
changes nothing. -/
theorem normFold_plain (cs : List String)
    (h : ∀ c ∈ cs, c ≠ "" ∧ c ≠ "." ∧ c ≠ "..") :
    ∀ stack : List String, cs.foldl normStep stack = stack ++ cs := by
  induction cs with
  | nil => intro stack; simp
  | cons c rest ih =>
    intro stack
    have hc := h c (List.mem_cons_self c rest)
    rw [List.foldl_cons]
    have hstep : normStep stack c = stack ++ [c] := by
      unfold normStep
      rw [if_neg (by simp [hc.1, hc.2.1]), if_neg hc.2.2]
    rw [hstep, ih (fun x hx => h x (List.mem_cons_of_mem c hx))]
    simp

/-- `normalize` is the identity on plain component lists. -/
theorem normalize_plain (cs : List String)
    (h : ∀ c ∈ cs, c ≠ "" ∧ c ≠ "." ∧ c ≠ "..") :
    normalize cs = cs := by
  unfold normalize
  rw [normFold_plain cs h []]
  simp

/-- A list is a prefix of itself extended. -/
theorem listPrefixOf_append_self (l r : List String) :
    listPrefixOf l (l ++ r) = true := by
  induction l with
  | nil => rfl
  | cons a as ih => simp [listPrefixOf, ih]

/-- `os.path.basename` output never contains a slash. -/
theorem pyBasename_no_slash (f : String) :
    ∀ c ∈ (pyBasename f).data, c ≠ '/' := by
  intro c hc
  unfold pyBasename at hc
  simp only [] at hc
  have hmem : c ∈ (f.data.reverse.takeWhile (fun c => c ≠ '/')) :=
    List.mem_reverse.mp hc
  have := List.mem_takeWhile_imp hmem
  simpa using this

/-- Splitting a slash-free character list yields the list itself. -/
theorem splitSlash_no_slash (l : List Char) (h : ∀ c ∈ l, c ≠ '/') :
    splitSlash l = [l] := by
  induction l with
  | nil => rfl
  | cons c rest ih =>
    have hc := h c (List.mem_cons_self c rest)
    unfold splitSlash
    rw [ih (fun x hx => h x (List.mem_cons_of_mem c hx))]
    simp [hc]

/-- A nonempty slash-free filename is a single path component. -/
theorem pathComponents_single (f : String) (hne : f ≠ "")
    (h : ∀ c ∈ f.data, c ≠ '/') :
    pathComponents f = [f] := by
  unfold pathComponents
  rw [splitSlash_no_slash f.data h]
  have : String.mk f.data = f := rfl
  simp [this, hne]

/-- A nonempty slash-free name is not an absolute path. -/
theorem pyStartsWith_slash_false (f : String) (hne : f.data ≠ [])
    (h : ∀ c ∈ f.data, c ≠ '/') :
    pyStartsWith f "/" = false := by
  unfold pyStartsWith
  cases hd : f.data with
  | nil => exact absurd hd hne
  | cons c cs =>
    have hc : c ≠ '/' := h c (hd ▸ List.mem_cons_self c cs)
    have : ("/" : String).data = ['/'] := rfl
    rw [this]
    simp [listStartsWith, hc]

/-- Appending one plain component to a plain directory stays inside it. -/
theorem insideDir_plain_append (dir : List String)
    (hdir : ∀ c ∈ dir, c ≠ "" ∧ c ≠ "." ∧ c ≠ "..")
    (b : String) (hb : b ≠ "" ∧ b ≠ "." ∧ b ≠ "..") :
    insideDir dir (dir ++ [b]) = true := by
  unfold insideDir
  have hplain : ∀ c ∈ dir ++ [b], c ≠ "" ∧ c ≠ "." ∧ c ≠ ".." := by
    intro c hc
    rcases List.mem_append.mp hc with h | h
    · exact hdir c h
    · rcases List.mem_singleton.mp h with rfl
      exact hb
  rw [normalize_plain _ hplain]
  simp [listPrefixOf_append_self]

/-- The basename keeps a slash-free 3-character suffix of the filename. -/
theorem pyBasename_keeps_suffix (f : String) (s1 s2 s3 : Char)
    (h1 : s1 ≠ '/') (h2 : s2 ≠ '/') (h3 : s3 ≠ '/')
    (h : listStartsWith f.data.reverse [s3, s2, s1] = true) :
    ∃ tw, (pyBasename f).data = tw ++ [s1, s2, s3] := by
  obtain ⟨t, ht⟩ := (listStartsWith_iff _ _).mp h
  unfold pyBasename
  simp only []
  rw [ht]
  simp only [List.cons_append, List.nil_append]
  simp [List.takeWhile_cons, h3, h2, h1]

/-- A string whose data ends in three explicit characters is none of the
special names `""`, `"."`, `".."`. -/
theorem string_ne_of_data_append3 (b : String) (tw : List Char) (s1 s2 s3 : Char)
    (hd : b.data = tw ++ [s1, s2, s3]) :
    b ≠ "" ∧ b ≠ "." ∧ b ≠ ".." := by
  refine ⟨?_, ?_, ?_⟩
  · intro he
    rw [he] at hd
    have : ([] : List Char) = tw ++ [s1, s2, s3] := hd
    simp at this
  · intro he
    rw [he] at hd
    have : (['.'] : List Char) = tw ++ [s1, s2, s3] := hd
    have hlen := congrArg List.length this
    simp at hlen
  · intro he
    rw [he] at hd
    have : (['.', '.'] : List Char) = tw ++ [s1, s2, s3] := hd
    have hlen := congrArg List.length this
    simp at hlen

/-- Claim C3, counterexample: the editContent endpoints join the raw request
filename, so `"../secret.md"` resolves to the context directory's parent —
outside it; and even `delete_file`'s basename lets `".."` through, making the
existence check touch the parent directory itself. -/
theorem c3_path_traversal_counterexample :
    insideDir ["data", "user_context"]
        (edit_file_path ["data", "user_context"] "../secret.md") = false ∧
    normalize (edit_file_path ["data", "user_context"] "../secret.md")
      = ["data", "secret.md"] ∧
    insideDir ["data", "user_context"]
        (delete_file_path ["data", "user_context"] "..") = false ∧
    normalize (delete_file_path ["data", "user_context"] "..") = ["data"] := by decide

/-- Claim C3 (amended): `upload_file` (extension gate plus basename) always
accesses a path inside the context directory, for every input filename;
`delete_file`/`toggle_file` (basename only) stay inside whenever the basename
is none of `""`/`"."`/`".."`; the editContent views
(`get_context_file_content`/`save_context_file_content`) apply no
sanitization and stay inside only when the raw filename is already a plain
name (slash-free and not a special segment). -/
theorem c3_path_sanitization (dir : List String)
    (hdir : ∀ c ∈ dir, c ≠ "" ∧ c ≠ "." ∧ c ≠ "..") :
    (∀ f p, upload_file_path dir f = some p → insideDir dir p = true) ∧
    (∀ f, pyBasename f ≠ "" → pyBasename f ≠ "." → pyBasename f ≠ ".." →
        insideDir dir (delete_file_path dir f) = true) ∧
    (∀ f, (∀ c ∈ f.data, c ≠ '/') → f ≠ "" → f ≠ "." → f ≠ ".." →
        insideDir dir (edit_file_path dir f) = true) := by
  have hjoin : ∀ b : String, b ≠ "" → b ≠ "." → b ≠ ".." → (∀ c ∈ b.data, c ≠ '/') →
      insideDir dir (pyJoin dir b) = true := by
    intro b h0 h1 h2 hns
    have hdata : b.data ≠ [] := by
      intro he
      exact h0 (by cases b; simp_all)
    unfold pyJoin
    rw [pyStartsWith_slash_false b hdata hns]
    simp only [Bool.false_eq_true, if_false]
    rw [pathComponents_single b h0 hns]
    exact insideDir_plain_append dir hdir b ⟨h0, h1, h2⟩
  refine ⟨?_, ?_, ?_⟩
  · intro f p hp
    unfold upload_file_path at hp
    by_cases hext : (pyEndsWith f ".md" || pyEndsWith f ".txt") = true
    · rw [if_pos hext] at hp
      have hp2 : p = pyJoin dir (pyBasename f) := by
        injection hp with h
        exact h.symm
      subst hp2
      have hsuf : ∃ tw, (pyBasename f).data = tw ++ ['.', 'm', 'd']
          ∨ (pyBasename f).data = tw ++ ['.', 't', 'x', 't'] := by
        rcases Bool.or_eq_true _ _ |>.mp hext with hmd | htxt
        · obtain ⟨tw, htw⟩ := pyBasename_keeps_suffix f '.' 'm' 'd'
            (by decide) (by decide) (by decide) hmd
          exact ⟨tw, Or.inl htw⟩
        · have h4 : listStartsWith f.data.reverse ['t', 'x', 't', '.'] = true := htxt
          obtain ⟨t, ht⟩ := (listStartsWith_iff _ _).mp h4
          refine ⟨((t.takeWhile (fun c => !decide (c = '/'))).reverse ++ []), Or.inr ?_⟩
          unfold pyBasename
          simp only []
          rw [ht]
          simp [List.cons_append, List.takeWhile_cons]
      have hb : pyBasename f ≠ "" ∧ pyBasename f ≠ "." ∧ pyBasename f ≠ ".." := by
        obtain ⟨tw, htw | htw⟩ := hsuf
        · exact string_ne_of_data_append3 _ tw _ _ _ htw
        · exact string_ne_of_data_append3 _ (tw ++ ['.']) 't' 'x' 't' (by simpa using htw)
      exact hjoin _ hb.1 hb.2.1 hb.2.2 (pyBasename_no_slash f)
    · rw [if_neg hext] at hp
      cases hp
  · intro f h0 h1 h2
    unfold delete_file_path
    exact hjoin _ h0 h1 h2 (pyBasename_no_slash f)
  · intro f hns h0 h1 h2
    unfold edit_file_path
    exact hjoin f h0 h1 h2 hns

/-- Witness for C3's amended theorem: an upload of a path-qualified `.md`
name lands inside the context directory. -/
theorem c3_path_sanitization_witness :
    insideDir ["data", "user_context"]
      (pyJoin ["data", "user_context"] (pyBasename "../../etc/evil.md")) = true :=
  (c3_path_sanitization ["data", "user_context"] (by decide)).1
    "../../etc/evil.md" (pyJoin ["data", "user_context"] (pyBasename "../../etc/evil.md"))
    (by decide)

/-! ## C9 — the last persona cannot be deleted -/

/-- The available-persona listing counts the valid directories. -/
theorem availablePersonas_length (st : AppState) :
    (availablePersonas st).length = validCount st := by
  unfold availablePersonas validCount
  rw [(sortByAsc_perm id _).length_eq, List.length_map, ← List.countP_eq_length_filter]

/-- With unique directory names, at most one directory bears a given name. -/
theorem countP_name_le_one (ps : List PersonaDir) (p : String)
    (h : (ps.map (fun d => d.name)).Nodup) :
    ps.countP (fun d => d.name = p) ≤ 1 := by
  induction ps with
  | nil => simp
  | cons d ds ih =>
    rw [List.map_cons, List.nodup_cons] at h
    rw [List.countP_cons]
    by_cases hd : d.name = p
    · have hz : ds.countP (fun x => x.name = p) = 0 := by
        rw [List.countP_eq_zero]
        intro x hx
        simp only [decide_eq_true_eq]
        intro hxp
        exact h.1 (hd ▸ hxp ▸ List.mem_map_of_mem (fun q => q.name) hx)
      simp [hd, hz]
    · have := ih h.2
      simp [hd]
      omega

/-- Splitting a count along a second predicate. -/
theorem countP_split (l : List PersonaDir) (v q : PersonaDir → Bool) :
    l.countP v ≤ l.countP (fun d => v d && q d) + l.countP (fun d => !q d) := by
  induction l with
  | nil => simp
  | cons d ds ih =>
    rw [List.countP_cons, List.countP_cons, List.countP_cons]
    by_cases hv : v d <;> by_cases hq : q d <;> simp [hv, hq] <;> omega

/-- Renaming one element to a fresh name preserves uniqueness. -/
theorem nodup_map_ite (l : List String) (p a : String)
    (hnd : l.Nodup) (ha : a ∉ l) :
    (l.map (fun x => if x = p then a else x)).Nodup := by
  induction l with
  | nil => simp
  | cons x xs ih =>
    rw [List.nodup_cons] at hnd
    have hax : a ∉ xs := fun h => ha (List.mem_cons_of_mem x h)
    rw [List.map_cons, List.nodup_cons]
    refine ⟨?_, ih hnd.2 hax⟩
    intro hmem
    obtain ⟨y, hy, hxy⟩ := List.mem_map.mp hmem
    by_cases hxp : x = p
    · rw [if_pos hxp] at hxy
      by_cases hyp : y = p
      · rw [if_pos hyp] at hxy
        exact hnd.1 (hxp ▸ hyp ▸ hy)
      · rw [if_neg hyp] at hxy
        exact hax (hxy ▸ hy)
    · rw [if_neg hxp] at hxy
      by_cases hyp : y = p
      · rw [if_pos hyp] at hxy
        exact ha (hxy ▸ List.mem_cons_self x xs)
      · rw [if_neg hyp] at hxy
        exact hnd.1 (hxy ▸ hy)

/-- `create_persona` preserves the persona-store invariant. -/
theorem create_step (st : AppState) (n : String) (h : wfInv st) :
    wfInv (create_persona st n).2 := by
  unfold create_persona
  by_cases h1 : pyStrip n = ""
  · simp only [h1, if_true]
    exact h
  · rw [if_neg h1]
    by_cases h2 : validPersonaName (pyStrip n)
    · simp only [h2, Bool.not_true, Bool.false_eq_true, if_false]
      by_cases h3 : st.personas.any (fun d => d.name = pyStrip n)
      · simp only [h3, if_true]
        exact h
      · simp only [h3, Bool.false_eq_true, if_false]
        constructor
        · simp only [List.map_append, List.map_cons, List.map_nil]
          rw [List.nodup_append]
          refine ⟨h.1, List.nodup_singleton _, ?_⟩
          intro x hx hx2
          rcases List.mem_singleton.mp hx2 with rfl
          obtain ⟨d, hd, hdn⟩ := List.mem_map.mp hx
          exact h3 (List.any_eq_true.mpr ⟨d, hd, by simp [hdn]⟩)
        · unfold validCount
          simp only [List.countP_append]
          have hv : personaValid ⟨pyStrip n, ["identity.md"]⟩ = true := rfl
          have hone : ([(⟨pyStrip n, ["identity.md"]⟩ : PersonaDir)].countP personaValid) = 1 := by
            simp [List.countP_cons, hv]
          rw [hone]
          have := h.2
          unfold validCount at this
          omega
    · have h2f : validPersonaName (pyStrip n) = false := Bool.eq_false_iff.mpr h2
      simp only [h2f, Bool.not_false, if_true]
      exact h

/-- `save_persona_file` (including renames) preserves the invariant. -/
theorem save_step (st : AppState) (pn nn : String) (h : wfInv st) :
    wfInv (save_persona_file st pn nn).2 := by
  unfold save_persona_file
  by_cases h1 : pyStrip pn = ""
  · simp only [h1, if_true]
    exact h
  · rw [if_neg h1]
    by_cases h2 : pyStrip nn ≠ "" ∧ pyStrip nn ≠ pyStrip pn
    · rw [if_pos h2]
      by_cases h3 : validPersonaName (pyStrip nn)
      · simp only [h3, Bool.not_true, Bool.false_eq_true, if_false]
        by_cases h4 : st.personas.any (fun d => d.name = pyStrip nn)
        · simp only [h4, if_true]
          exact h
        · simp only [h4, Bool.false_eq_true, if_false]
          by_cases h5 : st.personas.any (fun d => d.name = pyStrip pn)
          · simp only [h5, if_true]
            constructor
            · show ((st.personas.map (fun d =>
                  if d.name = pyStrip pn then { d with name := pyStrip nn } else d)).map
                    (fun d => d.name)).Nodup
              rw [List.map_map]
              have hfn : ((fun d => d.name) ∘ (fun d : PersonaDir =>
                  if d.name = pyStrip pn then { d with name := pyStrip nn } else d))
                  = (fun x => if x = pyStrip pn then pyStrip nn else x) ∘ (fun d => d.name) := by
                funext d
                by_cases hd : d.name = pyStrip pn
                · simp [hd]
                · simp [hd]
              rw [hfn, ← List.map_map]
              apply nodup_map_ite _ _ _ h.1
              intro hmem
              obtain ⟨d, hd, hdn⟩ := List.mem_map.mp hmem
              exact h4 (List.any_eq_true.mpr ⟨d, hd, by simp [hdn]⟩)
            · show 1 ≤ (st.personas.map (fun d =>
                  if d.name = pyStrip pn then { d with name := pyStrip nn } else d)).countP
                    personaValid
              rw [List.countP_map]
              have : (personaValid ∘ (fun d : PersonaDir =>
                  if d.name = pyStrip pn then { d with name := pyStrip nn } else d))
                  = personaValid := by
                funext d
                by_cases hd : d.name = pyStrip pn
                · simp only [Function.comp_apply, hd, if_true]
                  rfl
                · simp [hd]
              rw [this]
              exact h.2
          · simp only [h5, Bool.false_eq_true, if_false]
            exact h
      · have h3f : validPersonaName (pyStrip nn) = false := Bool.eq_false_iff.mpr h3
        simp only [h3f, Bool.not_false, if_true]
        exact h
    · rw [if_neg h2]
      exact h

/-- `delete_persona` preserves the invariant: it only deletes when at least
two valid personas exist. -/
theorem delete_step (st : AppState) (n : String) (h : wfInv st) :
    wfInv (delete_persona st n).2 := by
  unfold delete_persona
  by_cases h1 : pyStrip n = ""
  · simp only [h1, if_true]
    exact h
  · rw [if_neg h1]
    by_cases h2 : st.personas.any (fun d => d.name = pyStrip n)
    · simp only [h2, Bool.not_true, Bool.false_eq_true, if_false]
      by_cases h3 : (availablePersonas st).length ≤ 1
      · simp only [h3, if_true]
        exact h
      · simp only [h3, if_false]
        have hcore : wfInv { st with
            personas := st.personas.filter (fun d => d.name ≠ pyStrip n) } := by
          constructor
          · show ((st.personas.filter (fun d => d.name ≠ pyStrip n)).map
                (fun d => d.name)).Nodup
            exact ((List.filter_sublist _).map _).nodup h.1
          · show 1 ≤ (st.personas.filter (fun d => d.name ≠ pyStrip n)).countP personaValid
            have hge2 : 2 ≤ st.personas.countP personaValid := by
              have := availablePersonas_length st
              unfold validCount at this
              omega
            have hsplit := countP_split st.personas personaValid
              (fun d => d.name ≠ pyStrip n)
            have hle1 : st.personas.countP (fun d => !(decide (d.name ≠ pyStrip n))) ≤ 1 := by
              have heq : st.personas.countP (fun d => !(decide (d.name ≠ pyStrip n)))
                  = st.personas.countP (fun d => d.name = pyStrip n) := by
                apply List.countP_congr
                intro x _
                simp
              rw [heq]
              exact countP_name_le_one st.personas (pyStrip n) h.1
            have hfil : (st.personas.filter (fun d => d.name ≠ pyStrip n)).countP personaValid
                = st.personas.countP (fun d => personaValid d && decide (d.name ≠ pyStrip n)) :=
              List.countP_filter _ _ _
            omega
        by_cases h4 : st.defaultPersona = pyStrip n
        · rw [if_pos h4]
          cases havail : availablePersonas { st with
              personas := st.personas.filter (fun d => d.name ≠ pyStrip n) } with
          | nil => exact hcore
          | cons a rest => exact hcore
        · rw [if_neg h4]
          exact hcore
    · have h2f : (st.personas.any fun d => decide (d.name = pyStrip n)) = false :=
        Bool.eq_false_iff.mpr h2
      simp only [h2f, Bool.not_false, if_true]
      exact h



/-- Any single persona operation preserves the invariant. -/
theorem applyOp_wf (st : AppState) (op : PersonaOp) (h : wfInv st) :
    wfInv (applyOp st op) := by
  cases op with
  | create nm => exact create_step st nm h
  | save pn nn => exact save_step st pn nn h
  | del nm => exact delete_step st nm h

/-- Any sequence of persona operations preserves the invariant. -/
theorem applyOps_wf (ops : List PersonaOp) :
    ∀ st : AppState, wfInv st → wfInv (applyOps st ops) := by
  induction ops with
  | nil => intro st h; exact h
  | cons op rest ih =>
    intro st h
    unfold applyOps
    rw [List.foldl_cons]
    exact ih _ (applyOp_wf st op h)

/-- Claim C9 (confirmed): deleting a persona is rejected synchronously with
the specific "Cannot delete the only persona" reason and performs no mutation
whenever that persona is the only one available; and across any sequence of
persona operations (create / save-rename / delete) starting from a state with
unique directory names and at least one valid persona, at least one persona
always exists. -/
theorem c9_last_persona_guard :
    (∀ st p, pyStrip p = p → p ≠ "" → availablePersonas st = [p] →
        delete_persona st p = (OpResponse.onlyPersona, st)) ∧
    (∀ st ops, (st.personas.map (fun d => d.name)).Nodup →
        1 ≤ (availablePersonas st).length →
        1 ≤ (availablePersonas (applyOps st ops)).length) := by
  constructor
  · intro st p hstrip hne havail
    unfold delete_persona
    simp only [hstrip]
    rw [if_neg hne]
    have hmem : p ∈ availablePersonas st := by
      rw [havail]
      exact List.mem_singleton_self p
    have hany : (st.personas.any fun d => decide (d.name = p)) = true := by
      unfold availablePersonas at hmem
      have := ((sortByAsc_perm id _).mem_iff).mp hmem
      obtain ⟨d, hd, hdn⟩ := List.mem_map.mp this
      exact List.any_eq_true.mpr ⟨d, List.mem_of_mem_filter hd, by simp [hdn]⟩
    simp only [hany, Bool.not_true, Bool.false_eq_true, if_false]
    rw [if_pos (by rw [havail]; simp)]
  · intro st ops hnd hlen
    have hwf : wfInv st := by
      refine ⟨hnd, ?_⟩
      rw [← availablePersonas_length]
      exact hlen
    have hfin : wfInv (applyOps st ops) := applyOps_wf ops st hwf
    rw [availablePersonas_length]
    exact hfin.2


/-- Witness for C9 at a one-persona state and a concrete operation list. -/
theorem c9_last_persona_guard_witness :
    delete_persona ⟨[⟨"assistant", ["identity.md"]⟩], [], "assistant"⟩ "assistant"
      = (OpResponse.onlyPersona, ⟨[⟨"assistant", ["identity.md"]⟩], [], "assistant"⟩) ∧
    1 ≤ (availablePersonas (applyOps ⟨[⟨"assistant", ["identity.md"]⟩], [], "assistant"⟩
        [PersonaOp.del "assistant", PersonaOp.create "helper",
         PersonaOp.save "assistant" "aide"])).length :=
  ⟨c9_last_persona_guard.1 ⟨[⟨"assistant", ["identity.md"]⟩], [], "assistant"⟩ "assistant"
      (by decide) (by decide) (by decide),
   c9_last_persona_guard.2 ⟨[⟨"assistant", ["identity.md"]⟩], [], "assistant"⟩
      [PersonaOp.del "assistant", PersonaOp.create "helper",
       PersonaOp.save "assistant" "aide"] (by decide) (by decide)⟩

/-! ## C8 — context assembly ordering -/

/-- Strings with equal character data are equal. -/
theorem strDataEq (a b : String) (h : a.data = b.data) : a = b := by
  cases a
  cases b
  exact congrArg String.mk h

/-- String append concatenates the character data. -/
theorem strApp_data (a b : String) : (a ++ b).data = a.data ++ b.data := rfl

/-- String append is associative. -/
theorem strAppend_assoc (a b c : String) : (a ++ b) ++ c = a ++ (b ++ c) := by
  apply strDataEq
  simp only [strApp_data, List.append_assoc]

/-- Right-trimming past a part that ends in a non-whitespace character only
trims the tail. -/
theorem trimRight_append_last (a b : List Char) (c : Char)
    (hlast : a.getLast? = some c) (hc : wsChar c = false) :
    trimRightList wsChar (a ++ b) = a ++ trimRightList wsChar b := by
  unfold trimRightList
  rw [List.reverse_append]
  have hrev : a.reverse.head? = some c := by
    rw [List.head?_reverse]
    exact hlast
  obtain ⟨t, ht⟩ : ∃ t, a.reverse = c :: t := by
    cases harev : a.reverse with
    | nil => rw [harev] at hrev; cases hrev
    | cons x xs =>
      rw [harev] at hrev
      injection hrev with hx
      exact ⟨xs, by rw [hx]⟩
  rw [List.dropWhile_append]
  by_cases hempty : (b.reverse.dropWhile wsChar).isEmpty
  · rw [if_pos hempty]
    have hbnil : b.reverse.dropWhile wsChar = [] := by
      rwa [List.isEmpty_iff] at hempty
    rw [hbnil]
    rw [ht, List.dropWhile_cons_of_neg (by simp [hc]), ← ht, List.reverse_reverse]
    simp
  · rw [if_neg hempty]
    rw [List.reverse_append, List.reverse_reverse]

/-- Right-trimming is idempotent. -/
theorem trimRight_idem (l : List Char) :
    trimRightList wsChar (trimRightList wsChar l) = trimRightList wsChar l := by
  unfold trimRightList
  rw [List.reverse_reverse, List.dropWhile_idempotent]

set_option maxRecDepth 4000 in
/-- Claim C8 (confirmed): for a persona directory holding exactly `a.md` and
`b.md` (in either listing order), at least one enabled context file, and a
present LTM file, the assembled system prompt starts with the banner of
`a.md`, followed by the banner of `b.md`, then the context-files banner, then
the LTM banner, and the returned string is trimmed of leading and trailing
whitespace (stripping it again changes nothing). -/
theorem c8_context_assembly (ca cb path lc : String) (userDir : List ContextFile)
    (e : ContextFile) (es : List ContextFile)
    (henb : (list_files userDir).filter (fun f => f.enabled) = e :: es)
    (pf : List (String × String))
    (hpf : pf = [("a.md", ca), ("b.md", cb)] ∨ pf = [("b.md", cb), ("a.md", ca)]) :
    ∃ p1 p2 p3 p4,
      load_context (some pf) path userDir (some lc)
        = "--- SYSTEM INSTRUCTION: a.md ---" ++ p1
          ++ "--- SYSTEM INSTRUCTION: b.md ---" ++ p2
          ++ "--- USER CONTEXT FILES ---" ++ p3
          ++ "--- USER PROFILE (BACKGROUND KNOWLEDGE) ---" ++ p4 ∧
      pyStrip (load_context (some pf) path userDir (some lc))
        = load_context (some pf) path userDir (some lc) := by
  have hs1 : strLt "a.md" "b.md" = true := by decide
  have hs2 : strLt "b.md" "a.md" = false := by decide
  have he1 : pyEndsWith "a.md" ".md" = true := by decide
  have he2 : pyEndsWith "b.md" ".md" = true := by decide
  have hsort : sortByAsc (fun f => f.1) pf = [("a.md", ca), ("b.md", cb)] := by
    rcases hpf with h | h <;> subst h <;>
      simp [sortByAsc, insertByAsc, hs1, hs2]
  -- the enabled-context string, decomposed
  have huc : load_enabled_context userDir
      = "--- USER CONTEXT FILES ---" ++ "\n"
        ++ joinWith "\n"
          ("The following files were provided by the user as additional context.\n"
            :: (e :: es).foldr (fun f acc =>
                ("--- " ++ f.name ++ " ---") :: f.content :: "" :: acc) []) := by
    simp only [load_enabled_context]
    rw [henb]
    simp only [List.isEmpty_cons, Bool.false_eq_true, if_false]
    rfl
  have hucne : load_enabled_context userDir ≠ "" := by
    rw [huc]
    intro hcon
    have h2 := congrArg String.data hcon
    simp [strApp_data] at h2
  -- reduce the assembled prompt to a pyStrip of an explicit concatenation
  have htot : load_context (some pf) path userDir (some lc)
      = pyStrip ("" ++ "--- SYSTEM INSTRUCTION: " ++ "a.md" ++ " ---\n" ++ ca ++ "\n\n"
          ++ "--- SYSTEM INSTRUCTION: " ++ "b.md" ++ " ---\n" ++ cb ++ "\n\n"
          ++ load_enabled_context userDir ++ "\n\n"
          ++ ltmFraming ++ lc ++ "\n\n") := by
    simp only [load_context]
    rw [hsort]
    simp only [List.filter_cons, he1, he2, if_true, List.filter_nil, List.foldl_cons,
      List.foldl_nil]
    rw [if_pos hucne]
  -- name the moving parts
  set R := joinWith "\n"
      ("The following files were provided by the user as additional context.\n"
        :: (e :: es).foldr (fun f acc =>
            ("--- " ++ f.name ++ " ---") :: f.content :: "" :: acc) []) with hR
  -- the framing block, split at its last non-whitespace character
  set FM := "\nThe following information describes the USER (not you). "
      ++ "Use this to understand who you" ++ squote ++ "re talking to, "
      ++ "but DO NOT let it change your personality or communication style. "
      ++ "If it mentions how the user writes or speaks, that describes THEM, "
      ++ "not how YOU should respond. "
      ++ "Maintain your own personality" ++ squote
      ++ "s communication standards at all times." with hFM
  have hfr : ltmFraming = "--- USER PROFILE (BACKGROUND KNOWLEDGE) ---" ++ FM ++ "\n\n" := by
    rw [hFM]
    decide
  -- left part ending in a non-whitespace character, right part to be trimmed
  set Pb := "--- SYSTEM INSTRUCTION: a.md ---" ++ ("\n" ++ ca ++ "\n\n")
      ++ "--- SYSTEM INSTRUCTION: b.md ---" ++ ("\n" ++ cb ++ "\n\n")
      ++ "--- USER CONTEXT FILES ---" ++ ("\n" ++ R ++ "\n\n")
      ++ "--- USER PROFILE (BACKGROUND KNOWLEDGE) ---" with hPb
  have hgroupA : (("" ++ "--- SYSTEM INSTRUCTION: " ++ "a.md" ++ " ---\n" : String))
      = "--- SYSTEM INSTRUCTION: a.md ---" ++ "\n" := by decide
  have hgroupB : ∀ X : String,
      "--- SYSTEM INSTRUCTION: " ++ ("b.md" ++ (" ---\n" ++ X))
        = "--- SYSTEM INSTRUCTION: b.md ---" ++ ("\n" ++ X) := by
    intro X
    rw [← strAppend_assoc, ← strAppend_assoc, ← strAppend_assoc]
    exact congrArg (fun s => s ++ X) (by decide)
  have hPT : ("" ++ "--- SYSTEM INSTRUCTION: " ++ "a.md" ++ " ---\n" ++ ca ++ "\n\n"
          ++ "--- SYSTEM INSTRUCTION: " ++ "b.md" ++ " ---\n" ++ cb ++ "\n\n"
          ++ load_enabled_context userDir ++ "\n\n"
          ++ ltmFraming ++ lc ++ "\n\n")
      = (Pb ++ FM) ++ ("\n\n" ++ lc ++ "\n\n") := by
    rw [huc, hfr, hPb]
    rw [show ("" ++ "--- SYSTEM INSTRUCTION: " ++ "a.md" ++ " ---\n" : String)
        = "--- SYSTEM INSTRUCTION: a.md ---" ++ "\n" from hgroupA]
    simp only [strAppend_assoc]
    rw [hgroupB]
  -- head character of the trimmed-from-the-left part
  have hconsP : ∃ r : List Char, (Pb ++ FM).data = '-' :: r := by
    rw [strApp_data, hPb]
    simp only [strApp_data, List.append_assoc, List.cons_append]
    exact ⟨_, rfl⟩
  -- last character of the left part is a period
  have hlastFM : FM.data.getLast? = some '.' := by
    rw [hFM]
    decide
  have hlastP : (Pb ++ FM).data.getLast? = some '.' := by
    rw [strApp_data, List.getLast?_append, hlastFM]
    rfl
  -- stripping only trims the right, inside the tail after the LTM banner
  have hstripGen : ∀ Y : String, pyStrip ((Pb ++ FM) ++ Y)
      = (Pb ++ FM) ++ String.mk (trimRightList wsChar Y.data) := by
    intro Y
    unfold pyStrip
    obtain ⟨r0, hr0⟩ := hconsP
    have h1 : ((Pb ++ FM) ++ Y).data = (Pb ++ FM).data ++ Y.data := strApp_data _ _
    have h2 : (Pb ++ FM).data ++ Y.data = '-' :: (r0 ++ Y.data) := by
      rw [hr0]
      rfl
    rw [h1, h2, List.dropWhile_cons_of_neg (by decide), ← h2,
      trimRight_append_last _ _ '.' hlastP (by decide)]
    rfl
  refine ⟨"
" ++ ca ++ "

", "
" ++ cb ++ "

", "
" ++ R ++ "

",
    FM ++ String.mk (trimRightList wsChar (("

" ++ lc ++ "

") : String).data), ?_, ?_⟩
  · rw [htot, hPT, hstripGen, hPb]
    simp only [strAppend_assoc]
  · rw [htot, hPT, hstripGen]
    rw [show ((Pb ++ FM) ++ String.mk (trimRightList wsChar
        (("

" ++ lc ++ "

") : String).data)) = ((Pb ++ FM)
          ++ String.mk (trimRightList wsChar (("

" ++ lc ++ "

") : String).data)) from rfl,
      hstripGen]
    rw [show (String.mk (trimRightList wsChar (("

" ++ lc ++ "

") : String).data)).data
        = trimRightList wsChar (("

" ++ lc ++ "

") : String).data from rfl,
      trimRight_idem]

/-- Witness for C8 at concrete persona files, context file and LTM text. -/
theorem c8_context_assembly_witness :
    ∃ p1 p2 p3 p4,
      load_context (some [("b.md", "Beta"), ("a.md", "Alpha")]) "personas/x"
          [⟨"notes.md", "NOTES", true⟩] (some "MEMDOC")
        = "--- SYSTEM INSTRUCTION: a.md ---" ++ p1
          ++ "--- SYSTEM INSTRUCTION: b.md ---" ++ p2
          ++ "--- USER CONTEXT FILES ---" ++ p3
          ++ "--- USER PROFILE (BACKGROUND KNOWLEDGE) ---" ++ p4 ∧
      pyStrip (load_context (some [("b.md", "Beta"), ("a.md", "Alpha")]) "personas/x"
          [⟨"notes.md", "NOTES", true⟩] (some "MEMDOC"))
        = load_context (some [("b.md", "Beta"), ("a.md", "Alpha")]) "personas/x"
          [⟨"notes.md", "NOTES", true⟩] (some "MEMDOC") :=
  c8_context_assembly "Alpha" "Beta" "personas/x" "MEMDOC"
    [⟨"notes.md", "NOTES", true⟩] ⟨"notes.md", "NOTES", true⟩ []
    (by decide) [("b.md", "Beta"), ("a.md", "Alpha")] (Or.inr rfl)

end LiminalSalt
